import Mathlib

/-!
Verification of the university-etl-service ETL engine.

The JavaScript services under `src/services` are shallowly embedded here:
JavaScript values become the inductive type `JsVal`, strings become
`List Char`, fallible code returns `Except (List Char) _` (the error payload
is the thrown message), and the current time is threaded as an explicit
parameter.  Each Lean definition follows its JavaScript source function.
-/

namespace UniETL

/-- Shorthand: the characters of a Lean string literal, used to write
JavaScript string constants. -/
def jstr (s : String) : List Char := s.data

/-- A single-quote character (used inside JavaScript error messages). -/
def sq : Char := Char.ofNat 39

/-- JavaScript values as delivered by JSON decoding plus `undefined`.
Numbers are restricted to integers (the repository only ever inspects
them for truthiness and type, never arithmetically). -/
inductive JsVal where
  | null
  | undefined
  | bool (b : Bool)
  | num (n : Int)
  | str (s : List Char)
  | arr (elems : List JsVal)
  | obj (fields : List (List Char × JsVal))
deriving Repr

/-- JavaScript truthiness. -/
def truthy : JsVal → Bool
  | .null => false
  | .undefined => false
  | .bool b => b
  | .num n => n != 0
  | .str s => !s.isEmpty
  | .arr _ => true
  | .obj _ => true

/-- JavaScript `typeof`. -/
def typeofJs : JsVal → List Char
  | .null => jstr "object"
  | .undefined => jstr "undefined"
  | .bool _ => jstr "boolean"
  | .num _ => jstr "number"
  | .str _ => jstr "string"
  | .arr _ => jstr "object"
  | .obj _ => jstr "object"

/-- First binding of a key in an object field list. -/
def lookupField : List (List Char × JsVal) → List Char → Option JsVal
  | [], _ => none
  | (k, v) :: rest, key => if k = key then some v else lookupField rest key

/-- JavaScript property read `v[key]`: `undefined` when absent (all uses in
the services are guarded so that `v` is never `null`/`undefined`). -/
def jsGet (v : JsVal) (key : List Char) : JsVal :=
  match v with
  | .obj fields => (lookupField fields key).getD .undefined
  | _ => .undefined

/-- `Array.isArray`. -/
def isArrVal : JsVal → Bool
  | .arr _ => true
  | _ => false

/-- Whether a value is a string. -/
def isStrVal : JsVal → Bool
  | .str _ => true
  | _ => false

/-- The characters of a string value (only applied to strings). -/
def strContent : JsVal → List Char
  | .str s => s
  | _ => []

/-- ASCII whitespace as trimmed by `String.prototype.trim`. -/
def isWs (c : Char) : Bool :=
  c = ' ' || c = '\t' || c = '\n' || c = '\r' || c = Char.ofNat 11 || c = Char.ofNat 12

/-- JavaScript `str.trim()`. -/
def trimChars (s : List Char) : List Char :=
  ((s.dropWhile isWs).reverse.dropWhile isWs).reverse

/-- JavaScript `str.toLowerCase()` (ASCII case mapping suffices here). -/
def lowerChars (s : List Char) : List Char := s.map Char.toLower

/-- Decimal digits of a natural number. -/
def natRepr (n : Nat) : List Char := Nat.toDigits 10 n

/-- Decimal rendering of an integer. -/
def intRepr (n : Int) : List Char :=
  if n < 0 then '-' :: natRepr n.natAbs else natRepr n.toNat

mutual

/-- JavaScript `String(v)` coercion. -/
def jsToString : JsVal → List Char
  | .null => jstr "null"
  | .undefined => jstr "undefined"
  | .bool true => jstr "true"
  | .bool false => jstr "false"
  | .num n => intRepr n
  | .str s => s
  | .obj _ => jstr "[object Object]"
  | .arr xs => jsJoinElems xs

/-- `Array.prototype.toString`: elements joined with commas,
`null`/`undefined` elements rendered empty. -/
def jsJoinElems : List JsVal → List Char
  | [] => []
  | [.null] => []
  | [.undefined] => []
  | [v] => jsToString v
  | .null :: rest => ',' :: jsJoinElems rest
  | .undefined :: rest => ',' :: jsJoinElems rest
  | v :: rest => jsToString v ++ ',' :: jsJoinElems rest

end

/-! ## TransformService (src/services/transformService.js) -/

/-- A canonical university record as built by `transformRecord`. -/
structure Canon where
  id : List Char
  name : List Char
  country : List Char
  alphaCode : Option (List Char)
  stateProvince : Option (List Char)
  domains : List (List Char)
  webPages : List (List Char)
  lastUpdated : List Char
deriving Repr, DecidableEq

/-- `sanitizeString`: trim, then collapse internal whitespace runs to a
single space; non-strings go through `String(str)`. -/
def collapseWs : List Char → List Char
  | [] => []
  | [c] => if isWs c then [' '] else [c]
  | c :: d :: rest =>
      if isWs c && isWs d then collapseWs (d :: rest)
      else (if isWs c then ' ' else c) :: collapseWs (d :: rest)

/-- `TransformService.sanitizeString`. -/
def sanitizeString (v : JsVal) : List Char :=
  match v with
  | .str s => collapseWs (trimChars s)
  | _ => jsToString v

/-- Keep predicate of the `filter` in `transformDomains`/`transformWebPages`:
string entries with non-empty trim. -/
def keepStringEntry (v : JsVal) : Bool :=
  match v with
  | .str s => !(trimChars s).isEmpty
  | _ => false

/-- First-occurrence deduplication, as `filter((x,i,a) => a.indexOf(x) === i)`. -/
def dedupFirstAux (seen : List (List Char)) : List (List Char) → List (List Char)
  | [] => []
  | x :: rest =>
      if x ∈ seen then dedupFirstAux seen rest
      else x :: dedupFirstAux (x :: seen) rest

/-- First-occurrence deduplication of a string list. -/
def dedupFirst (l : List (List Char)) : List (List Char) := dedupFirstAux [] l

/-- `TransformService.transformDomains`. -/
def transformDomains (v : JsVal) : List (List Char) :=
  match v with
  | .arr xs =>
      dedupFirst (((xs.filter keepStringEntry).map
        (fun d => lowerChars (trimChars (strContent d)))))
  | _ => []

/-- Whether `pre` is an initial segment of `s` (JavaScript `startsWith`). -/
def leadingMatch : List Char → List Char → Bool
  | [], _ => true
  | _ :: _, [] => false
  | p :: ps, c :: cs => p = c && leadingMatch ps cs

/-- `TransformService.transformWebPages`. -/
def transformWebPages (v : JsVal) : List (List Char) :=
  match v with
  | .arr xs =>
      dedupFirst (((xs.filter keepStringEntry).map (fun u =>
        let t := trimChars (strContent u)
        if leadingMatch (jstr "http://") t || leadingMatch (jstr "https://") t then t
        else jstr "https://" ++ t)))
  | _ => []

/-- Slug character test of `generateId`: lowercase letters and digits
survive; every other character is replaced (the source applies this after
`toLowerCase`). -/
def isLowerAlnum (c : Char) : Bool :=
  ('a' ≤ c && c ≤ 'z') || ('0' ≤ c && c ≤ '9')

/-- Replace a single character outside a-z0-9 with a hyphen. -/
def slugChar (c : Char) : Char := if isLowerAlnum c then c else '-'

/-- Per-character slug replacement: each character outside a-z0-9 becomes
a hyphen. -/
def percharSlug (s : List Char) : List Char := s.map slugChar

/-- Collapse every run of hyphens to a single hyphen (the hyphen-run
regex replace in `generateId`). -/
def collapseHyphens : List Char → List Char
  | [] => []
  | [c] => [c]
  | c :: d :: rest =>
      if c = '-' && d = '-' then collapseHyphens (d :: rest)
      else c :: collapseHyphens (d :: rest)

/-- Leading half of the anchored hyphen regex replace in `generateId`:
drop one leading hyphen. -/
def stripLeadOne : List Char → List Char
  | [] => []
  | c :: rest => if c = '-' then rest else c :: rest

/-- Trailing half of the anchored hyphen regex replace in `generateId`:
drop one trailing hyphen. -/
def stripTrailOne : List Char → List Char
  | [] => []
  | [c] => if c = '-' then [] else [c]
  | c :: d :: rest => c :: stripTrailOne (d :: rest)

/-- Drop one hyphen at each end (the anchored hyphen regex replace in
`generateId`). -/
def stripEnds (s : List Char) : List Char := stripTrailOne (stripLeadOne s)

/-- JavaScript `v.toLowerCase()`: a `TypeError` unless `v` is a string. -/
def toLowerJs (v : JsVal) : Except (List Char) (List Char) :=
  match v with
  | .str s => .ok (lowerChars s)
  | _ => .error (jstr "TypeError: toLowerCase is not a function")

/-- `TransformService.generateId`. -/
def generateId (record : JsVal) : Except (List Char) (List Char) :=
  match toLowerJs (jsGet record (jstr "name")) with
  | .error e => .error e
  | .ok nameLower =>
    match toLowerJs (jsGet record (jstr "country")) with
    | .error e => .error e
    | .ok countryLower =>
      match (if truthy (jsGet record (jstr "state-province")) then
               toLowerJs (jsGet record (jstr "state-province"))
             else .ok []) with
      | .error e => .error e
      | .ok stateLower =>
        let name := percharSlug nameLower
        let country := percharSlug countryLower
        let state := percharSlug stateLower
        .ok (stripEnds (collapseHyphens
          (country ++ '-' :: ((if !state.isEmpty then state ++ ['-'] else []) ++ name))))

/-- Required-field test of `transformRecord`: the field must be truthy,
a string, and non-empty after trimming. -/
def requiredFieldOk (record : JsVal) (field : List Char) : Bool :=
  let v := jsGet record field
  truthy v && isStrVal v && !(trimChars (strContent v)).isEmpty

/-- Message: Missing or invalid required field, with the field name in
single quotes. -/
def missingFieldMsg (field : List Char) : List Char :=
  jstr "Missing or invalid required field " ++ sq :: field ++ [sq]

/-- `TransformService.validateTransformedRecord`: the id, name and country
must be truthy (non-empty) strings; the type and array checks of the source
hold by construction for `Canon`. -/
def validateTransformedRecord (r : Canon) : Bool :=
  !r.id.isEmpty && !r.name.isEmpty && !r.country.isEmpty

/-- The object literal built inside `transformRecord` (after `generateId`
succeeded with `idv`). -/
def buildCanon (record : JsVal) (now : List Char) (idv : List Char) : Canon :=
  { id := idv
    name := sanitizeString (jsGet record (jstr "name"))
    country := sanitizeString (jsGet record (jstr "country"))
    alphaCode :=
      if truthy (jsGet record (jstr "alpha_two_code")) then
        some (sanitizeString (jsGet record (jstr "alpha_two_code")))
      else none
    stateProvince :=
      if truthy (jsGet record (jstr "state-province")) then
        some (sanitizeString (jsGet record (jstr "state-province")))
      else none
    domains := transformDomains (jsGet record (jstr "domains"))
    webPages := transformWebPages (jsGet record (jstr "web_pages"))
    lastUpdated := now }

/-- `TransformService.transformRecord`; `now` is the current timestamp used
for `lastUpdated`. -/
def transformRecord (record : JsVal) (index : Nat) (now : List Char) :
    Except (List Char) Canon :=
  if !truthy record || typeofJs record ≠ jstr "object" then
    .error (jstr "Invalid record type at index " ++ natRepr index ++
      jstr ": expected object")
  else if !requiredFieldOk record (jstr "name") then
    .error (missingFieldMsg (jstr "name"))
  else if !requiredFieldOk record (jstr "country") then
    .error (missingFieldMsg (jstr "country"))
  else
    match generateId record with
    | .error e => .error e
    | .ok idv =>
      if !validateTransformedRecord (buildCanon record now idv) then
        .error (jstr "Transformed record failed validation")
      else .ok (buildCanon record now idv)

/-- A per-record failure entry of `transformData`. -/
structure TransformFailure where
  index : Nat
  record : JsVal
  error : List Char
deriving Repr

/-- The `metadata` object of a `transformData` result. -/
structure TransformMetadata where
  totalRecords : Nat
  successfulTransformations : Nat
  failedTransformations : Nat
  transformationDate : List Char
  errors : List TransformFailure
deriving Repr

/-- The result object of `transformData`. -/
structure TransformResult where
  data : List Canon
  metadata : TransformMetadata
deriving Repr

/-- The indexed loop of `transformData`: successfully transformed records
and failure entries, in order. -/
def transformLoop (now : List Char) : List JsVal → Nat →
    List Canon × List TransformFailure
  | [], _ => ([], [])
  | r :: rest, i =>
    let p := transformLoop now rest (i + 1)
    match transformRecord r i now with
    | .ok c => (c :: p.1, p.2)
    | .error e => (p.1, { index := i, record := r, error := e } :: p.2)

/-- `TransformService.transformData` on an array input (a non-array input
throws before the loop; the claims quantify over arrays). -/
def transformData (rawData : List JsVal) (now : List Char) : TransformResult :=
  let p := transformLoop now rawData 0
  { data := p.1
    metadata :=
      { totalRecords := rawData.length
        successfulTransformations := p.1.length
        failedTransformations := p.2.length
        transformationDate := now
        errors := p.2 } }

/-! ## ExtractService (src/services/extractService.js) -/

/-- Decimal-digit key parse, for the JavaScript `in` operator on arrays. -/
def parseNatKey (s : List Char) : Option Nat :=
  if s ≠ [] && s.all (fun c => '0' ≤ c && c ≤ '9') then
    some (s.foldl (fun acc c => acc * 10 + (c.toNat - '0'.toNat)) 0)
  else none

/-- JavaScript `key in v`: a `TypeError` on primitives; on objects a key
lookup; on arrays an index (or `length`) lookup. -/
def jsHasProp (v : JsVal) (key : List Char) : Except (List Char) Bool :=
  match v with
  | .obj fields => .ok (fields.any (fun kv => kv.1 = key))
  | .arr xs =>
      .ok (key = jstr "length" ||
        (match parseNatKey key with
         | some i => i < xs.length
         | none => false))
  | _ => .error (jstr "TypeError: cannot use in operator on a primitive")

/-- `ExtractService.validateExtractedData`: false on non-arrays, true on the
empty array, otherwise both required keys must be present on the first
element (the `in` operator throws when that element is primitive). -/
def validateExtractedData (data : JsVal) : Except (List Char) Bool :=
  match data with
  | .arr [] => .ok true
  | .arr (sample :: _) =>
      (match jsHasProp sample (jstr "name") with
       | .error e => .error e
       | .ok hasName =>
         if !hasName then .ok false
         else
           match jsHasProp sample (jstr "country") with
           | .error e => .error e
           | .ok hasCountry => if !hasCountry then .ok false else .ok true)
  | _ => .ok false

/-- Per-attempt outcome inside `extractData`: a transport error from
`makeApiRequest`, or its `response.data` checked to be a (truthy) array. -/
def attemptOutcome (resp : Except (List Char) JsVal) :
    Except (List Char) (List JsVal) :=
  match resp with
  | .error e => .error e
  | .ok d =>
      if !truthy d || !isArrVal d then
        .error (jstr "Invalid response format: expected array of universities")
      else
        match d with
        | .arr xs => .ok xs
        | _ => .error (jstr "Invalid response format: expected array of universities")

/-- The exhaustion message of `extractData`. -/
def extractFailMsg (attempts : Nat) (lastMsg : List Char) : List Char :=
  jstr "Failed to extract data after " ++ natRepr attempts ++
    jstr " attempts: " ++ lastMsg

/-- The retry loop of `extractData`: `oracle k` is the result of the k-th
`makeApiRequest` (1-indexed); `total` is `retryAttempts`, `fuel` counts the
remaining attempts.  With `retryAttempts = 0` the source would dereference
an undefined `lastError`; that corner is modelled as the thrown TypeError. -/
def extractGo (oracle : Nat → Except (List Char) JsVal) (total : Nat) :
    Nat → Nat → Option (List Char) → Except (List Char) (List JsVal)
  | 0, _, lastErr =>
      .error (match lastErr with
        | some m => extractFailMsg total m
        | none => jstr "TypeError: cannot read message of undefined")
  | fuel + 1, attempt, _ =>
      match attemptOutcome (oracle attempt) with
      | .ok xs => .ok xs
      | .error e => extractGo oracle total fuel (attempt + 1) (some e)

/-- `ExtractService.extractData` with `retryAttempts` attempts drawn from
`oracle`. -/
def extractData (oracle : Nat → Except (List Char) JsVal)
    (retryAttempts : Nat) : Except (List Char) (List JsVal) :=
  extractGo oracle retryAttempts retryAttempts 1 none

/-- `ExtractService.calculateRetryDelay` over exact numbers: the jitter
(`Math.random() * 1000`) is passed in as a parameter. -/
def calculateRetryDelay (retryDelay maxRetryDelay : ℚ) (attempt : Nat)
    (jitter : ℚ) : ℚ :=
  min (retryDelay * 2 ^ (attempt - 1) + jitter) maxRetryDelay

/-! ## LoadService (src/services/loadService.js) -/

/-- Property read used by `generateCsv` (`record[header]`) on a canonical
record: exactly the keys a transformed record owns; every other header
name reads as `undefined`. -/
def canonProp (r : Canon) (key : List Char) : JsVal :=
  if key = jstr "id" then .str r.id
  else if key = jstr "name" then .str r.name
  else if key = jstr "country" then .str r.country
  else if key = jstr "alphaCode" then
    (match r.alphaCode with | some s => .str s | none => .null)
  else if key = jstr "stateProvince" then
    (match r.stateProvince with | some s => .str s | none => .null)
  else if key = jstr "domains" then .arr (r.domains.map .str)
  else if key = jstr "webPages" then .arr (r.webPages.map .str)
  else if key = jstr "lastUpdated" then .str r.lastUpdated
  else .undefined

/-- Join an array with semicolons (`value.join(";")`), rendering elements
with the JavaScript string coercion. -/
def joinSemicolon : List JsVal → List Char
  | [] => []
  | [.null] => []
  | [.undefined] => []
  | [v] => jsToString v
  | .null :: rest => ';' :: joinSemicolon rest
  | .undefined :: rest => ';' :: joinSemicolon rest
  | v :: rest => jsToString v ++ ';' :: joinSemicolon rest

/-- One cell of `generateCsv`: arrays joined with semicolons, null and
undefined rendered empty, then stringified and quoted (with embedded
quotes doubled) when a comma or quote occurs. -/
def csvCell (v : JsVal) : List Char :=
  let afterJoin : JsVal := match v with | .arr xs => .str (joinSemicolon xs) | w => w
  let afterNull : JsVal :=
    match afterJoin with | .null => .str [] | .undefined => .str [] | w => w
  let s := jsToString afterNull
  if s.contains ',' || s.contains '"' then
    '"' :: (s.flatMap (fun c => if c = '"' then ['"', '"'] else [c])) ++ ['"']
  else s

/-- The fixed header list of `generateCsv`. -/
def csvHeaders : List (List Char) :=
  [jstr "id", jstr "name", jstr "country", jstr "alphaCode", jstr "state",
   jstr "domains", jstr "webPages", jstr "updatedAt"]

/-- Join strings with a separator character. -/
def joinWith (sep : Char) : List (List Char) → List Char
  | [] => []
  | [s] => s
  | s :: rest => s ++ sep :: joinWith sep rest

/-- One data row of `generateCsv`. -/
def csvRow (r : Canon) : List Char :=
  joinWith ',' (csvHeaders.map (fun h => csvCell (canonProp r h)))

/-- `LoadService.generateCsv`: `none` when the batch is empty (the source
returns without writing a file), otherwise the file content. -/
def generateCsv (data : List Canon) : Option (List Char) :=
  if data.isEmpty then none
  else some (joinWith '\n' (joinWith ',' csvHeaders :: data.map csvRow))

/-- The `recordsLoaded` count returned by `LoadService.saveData` (the file
system writes are outside the model). -/
def saveDataRecordsLoaded (t : TransformResult) : Nat := t.data.length

/-! ## ETLService (src/services/etlService.js) -/

/-- The method names defined on `ExtractService`. -/
def extractServiceMethodNames : List (List Char) :=
  [jstr "extractData", jstr "makeApiRequest", jstr "calculateRetryDelay",
   jstr "sleep", jstr "validateExtractedData"]

/-- JavaScript method dispatch for the validator call in `ETLService.run`:
looking up a name that is not a method of `ExtractService` yields
`undefined`, and calling it throws a TypeError.  The only validator-shaped
method on the class is `validateExtractedData`. -/
def extractServiceCallValidator (m : List Char) (arg : JsVal) :
    Except (List Char) Bool :=
  if m ∈ extractServiceMethodNames then validateExtractedData arg
  else .error (jstr "TypeError: this.extract." ++ m ++ jstr " is not a function")

/-- The success value of `ETLService.run`. -/
structure RunSummary where
  success : Bool
  duration : Nat
  extracted : Nat
  transformed : Nat
  loaded : Nat
deriving Repr, DecidableEq

/-- `ETLService.run`: extraction outcome passed in (the HTTP transport is
external), then the validator dispatch, then transform and load.  The
catch block rethrows the error unchanged. -/
def etlRun (extractOutcome : Except (List Char) (List JsVal))
    (now : List Char) (duration : Nat) : Except (List Char) RunSummary :=
  match extractOutcome with
  | .error e => .error e
  | .ok rawData =>
    match extractServiceCallValidator (jstr "validateData") (.arr rawData) with
    | .error e => .error e
    | .ok valid =>
      if !valid then .error (jstr "Invalid data from API")
      else
        let tr := transformData rawData now
        .ok { success := true
              duration := duration
              extracted := rawData.length
              transformed := tr.data.length
              loaded := saveDataRecordsLoaded tr }

/-! ## SchedulerService (src/services/schedulerService.js) -/

/-- One history entry (`type` is only set by `runManual`). -/
structure HistEntry where
  timestamp : List Char
  success : Bool
  duration : Nat
  records : Option Nat
  error : Option (List Char)
  entryType : Option (List Char)
deriving Repr, DecidableEq

/-- The mutable scheduler state relevant to firings: the `running` gate and
the bounded history. -/
structure SchedulerState where
  running : Bool
  history : List HistEntry
deriving Repr

/-- The history cap (`this.history.slice(0, 10)`). -/
def historyCap : Nat := 10

/-- `SchedulerService.runETL` (the scheduled firing): skip silently when
already running; otherwise record exactly one outcome, clear the gate in
the `finally`. -/
def runETLStep (st : SchedulerState)
    (etlOutcome : Except (List Char) RunSummary) (ts : List Char)
    (dur : Nat) : SchedulerState :=
  if st.running then st
  else
    let entry : HistEntry :=
      match etlOutcome with
      | .ok r =>
          { timestamp := ts, success := true, duration := dur,
            records := some r.loaded, error := none, entryType := none }
      | .error e =>
          { timestamp := ts, success := false, duration := dur,
            records := none, error := some e, entryType := none }
    { running := false, history := (entry :: st.history).take historyCap }

/-- The observable outcome of `runManual`: the already-running rejection,
a returned success record, or a thrown failure record. -/
inductive ManualOutcome where
  | alreadyRunning
  | completed (entry : HistEntry)
  | threwRecord (entry : HistEntry)
deriving Repr, DecidableEq

/-- `SchedulerService.runManual`: fail fast with the already-running error
when the gate is set (no history change); otherwise record exactly one
outcome, clear the gate in the `finally`, and return or throw the record. -/
def runManualStep (st : SchedulerState)
    (etlOutcome : Except (List Char) RunSummary) (ts : List Char)
    (dur : Nat) : SchedulerState × ManualOutcome :=
  if st.running then (st, .alreadyRunning)
  else
    match etlOutcome with
    | .ok r =>
        let entry : HistEntry :=
          { timestamp := ts, success := true, duration := dur,
            records := some r.loaded, error := none,
            entryType := some (jstr "manual") }
        ({ running := false, history := (entry :: st.history).take historyCap },
         .completed entry)
    | .error e =>
        let entry : HistEntry :=
          { timestamp := ts, success := false, duration := dur,
            records := none, error := some e,
            entryType := some (jstr "manual") }
        ({ running := false, history := (entry :: st.history).take historyCap },
         .threwRecord entry)

/-! ## Specification-side definitions and proof auxiliaries -/

/-- Update (or add) a key in an object field list, as a JavaScript property
assignment would. -/
def setField : List (List Char × JsVal) → List Char → JsVal →
    List (List Char × JsVal)
  | [], key, v => [(key, v)]
  | (k, w) :: rest, key, v =>
      if k = key then (key, v) :: rest else (k, w) :: setField rest key v

/-- Drop every leading hyphen. -/
def stripAllLead (s : List Char) : List Char := s.dropWhile (fun c => c = '-')

/-- Drop every trailing hyphen. -/
def stripAllTrail : List Char → List Char
  | [] => []
  | c :: rest =>
      let r := stripAllTrail rest
      if r.isEmpty && c = '-' then [] else c :: r

/-- Slugify as worded by the specification (for the refinement comparison
of the id layout): lowercase, replace every run of non-alphanumeric
characters with a single hyphen, and strip leading and trailing hyphens. -/
def slugSpec (s : List Char) : List Char :=
  stripAllTrail (stripAllLead (collapseHyphens (percharSlug (lowerChars s))))

/-- The maximal hyphen-free runs of a string, in order (auxiliary for the
slug proofs). -/
def tokens : List Char → List (List Char)
  | [] => []
  | [c] => if c = '-' then [] else [[c]]
  | c :: d :: rest =>
      if c = '-' then tokens (d :: rest)
      else
        match tokens (d :: rest) with
        | [] => [[c]]
        | t :: ts => if d = '-' then [c] :: (t :: ts) else (c :: t) :: ts

/-- Join strings with single hyphens (auxiliary for the slug proofs). -/
def hyphenJoin : List (List Char) → List Char
  | [] => []
  | [t] => t
  | t :: ts => t ++ '-' :: hyphenJoin ts

/-- No two consecutive hyphens occur. -/
def noDoubleHyphen : List Char → Bool
  | [] => true
  | [_] => true
  | c :: d :: rest => !(c = '-' && d = '-') && noDoubleHyphen (d :: rest)

/-- The validator condition as the claim words it (spec side, for the
refinement comparison): the sequence is empty, or its first element is an
object whose name and country fields are present and non-empty. -/
def claimWellFormed : JsVal → Bool
  | .arr [] => true
  | .arr (.obj fields :: _) =>
      (match lookupField fields (jstr "name") with
       | some v => truthy v
       | none => false) &&
      (match lookupField fields (jstr "country") with
       | some v => truthy v
       | none => false)
  | _ => false

/-- The amended validator condition: the sequence is empty, or its first
element is an object carrying both the name and the country key (values
unconstrained). -/
def amendedWellFormed : JsVal → Bool
  | .arr [] => true
  | .arr (.obj fields :: _) =>
      fields.any (fun kv => kv.1 = jstr "name") &&
      fields.any (fun kv => kv.1 = jstr "country")
  | _ => false

/-- The fields of a well-formed raw record, used as a concrete input in
several closed statements. -/
def sampleFields : List (List Char × JsVal) :=
  [(jstr "name", .str (jstr "Test University")),
   (jstr "country", .str (jstr "United States")),
   (jstr "state-province", .str (jstr "New York")),
   (jstr "alpha_two_code", .str (jstr "US")),
   (jstr "domains", .arr [.str (jstr "test.edu")]),
   (jstr "web_pages", .arr [.str (jstr "https://test.edu")])]

/-- A well-formed raw record, used as a concrete input in several closed
statements. -/
def sampleRaw : JsVal := .obj sampleFields

/-- A concrete canonical record carrying a state province and a timestamp,
used to evaluate the tabular rendering. -/
def sampleCanon : Canon :=
  { id := jstr "united-states-texas-rice-university"
    name := jstr "Rice University"
    country := jstr "United States"
    alphaCode := some (jstr "US")
    stateProvince := some (jstr "Texas")
    domains := [jstr "rice.edu"]
    webPages := [jstr "https://www.rice.edu"]
    lastUpdated := jstr "2024-01-01T00:00:00.000Z" }

/-! ## Theorems -/

/-- Invariant of the transformation loop: success and failure counts add up
to the input length, and every failure entry records its index, the raw
record at that index, and the error thrown for that record. -/
theorem transformLoop_spec (now : List Char) :
    ∀ (l : List JsVal) (i : Nat),
      (transformLoop now l i).1.length + (transformLoop now l i).2.length =
        l.length ∧
      ∀ f ∈ (transformLoop now l i).2,
        i ≤ f.index ∧ l.get? (f.index - i) = some f.record ∧
          transformRecord f.record f.index now = .error f.error := by
  intro l
  induction l with
  | nil => intro i; simp [transformLoop]
  | cons r rest ih =>
    intro i
    obtain ⟨ihlen, iherr⟩ := ih (i + 1)
    constructor
    · cases h : transformRecord r i now <;>
        simp [transformLoop, h] <;> omega
    · intro f hf
      cases h : transformRecord r i now with
      | error e =>
        simp only [transformLoop, h, List.mem_cons] at hf
        rcases hf with hf | hf
        · subst hf; simpa using h
        · obtain ⟨h1, h2, h3⟩ := iherr f hf
          refine ⟨by omega, ?_, h3⟩
          rw [show f.index - i = (f.index - (i + 1)) + 1 by omega]
          simpa using h2
      | ok c =>
        simp only [transformLoop, h] at hf
        obtain ⟨h1, h2, h3⟩ := iherr f hf
        refine ⟨by omega, ?_, h3⟩
        rw [show f.index - i = (f.index - (i + 1)) + 1 by omega]
        simpa using h2

/-- C4: for every array of raw records, transform returns a batch whose
metadata satisfies successfulTransformations + failedTransformations =
totalRecords and totalRecords = input length, whose record sequence has
length successfulTransformations, and every per-record failure is recorded
with its index, the original raw record, and an error message. -/
theorem transformData_batch_invariants (rawData : List JsVal)
    (now : List Char) :
    (transformData rawData now).metadata.successfulTransformations +
        (transformData rawData now).metadata.failedTransformations =
      (transformData rawData now).metadata.totalRecords ∧
    (transformData rawData now).metadata.totalRecords = rawData.length ∧
    (transformData rawData now).data.length =
      (transformData rawData now).metadata.successfulTransformations ∧
    ∀ f ∈ (transformData rawData now).metadata.errors,
      rawData.get? f.index = some f.record ∧
        transformRecord f.record f.index now = .error f.error := by
  obtain ⟨hlen, herr⟩ := transformLoop_spec now rawData 0
  refine ⟨by simpa [transformData] using hlen, rfl, rfl, ?_⟩
  intro f hf
  obtain ⟨_, h2, h3⟩ := herr f (by simpa [transformData] using hf)
  exact ⟨by simpa using h2, h3⟩

/-- Witness for the C4 theorem at a concrete one-record input whose record
fails transformation. -/
theorem transformData_batch_invariants_witness :
    [JsVal.null].get? 0 = some JsVal.null ∧
      transformRecord JsVal.null 0 (jstr "t") =
        .error (jstr "Invalid record type at index 0: expected object") := by
  have h := (transformData_batch_invariants [JsVal.null] (jstr "t")).2.2.2
  exact h ⟨0, JsVal.null, jstr "Invalid record type at index 0: expected object"⟩
    (by simp [transformData, transformLoop, transformRecord, truthy]; decide)

/-- The timestamp only enters a transformed record through `lastUpdated`:
re-running `transformRecord` with another clock value maps the result
through a `lastUpdated` update. -/
theorem transformRecord_now (record : JsVal) (i : Nat) (now now₂ : List Char) :
    transformRecord record i now₂ =
      (transformRecord record i now).map
        (fun c => { c with lastUpdated := now₂ }) := by
  unfold transformRecord
  split
  · rfl
  · split
    · rfl
    · split
      · rfl
      · cases hgen : generateId record with
        | error e => rfl
        | ok idv =>
          have hv : validateTransformedRecord (buildCanon record now₂ idv) =
              validateTransformedRecord (buildCanon record now idv) := rfl
          simp only [hv]
          split
          · rfl
          · rfl

/-- C9: transforming the same accepted raw record twice yields canonical
records with identical id and identical values in every field except
`lastUpdated`. -/
theorem transformRecord_idempotent (record : JsVal) (i : Nat)
    (now₁ now₂ : List Char) (c₁ c₂ : Canon)
    (h₁ : transformRecord record i now₁ = .ok c₁)
    (h₂ : transformRecord record i now₂ = .ok c₂) :
    c₁.id = c₂.id ∧ c₁.name = c₂.name ∧ c₁.country = c₂.country ∧
    c₁.alphaCode = c₂.alphaCode ∧ c₁.stateProvince = c₂.stateProvince ∧
    c₁.domains = c₂.domains ∧ c₁.webPages = c₂.webPages := by
  have h := transformRecord_now record i now₁ now₂
  rw [h₁, h₂] at h
  simp only [Except.map] at h
  cases h
  simp

/-- Witness for the C9 theorem: a concrete record transformed under two
different clock values. -/
theorem transformRecord_idempotent_witness :
    (buildCanon sampleRaw (jstr "t1")
        (jstr "united-states-new-york-test-university")).id =
      (buildCanon sampleRaw (jstr "t2")
        (jstr "united-states-new-york-test-university")).id := by
  have h := transformRecord_idempotent sampleRaw 0 (jstr "t1") (jstr "t2")
    (buildCanon sampleRaw (jstr "t1")
      (jstr "united-states-new-york-test-university"))
    (buildCanon sampleRaw (jstr "t2")
      (jstr "united-states-new-york-test-university"))
    (by rfl) (by rfl)
  exact h.1

/-- Characterization of a successful `transformRecord`. -/
theorem transformRecord_ok_iff (record : JsVal) (i : Nat) (now : List Char)
    (c : Canon) :
    transformRecord record i now = .ok c ↔
      (truthy record = true ∧ typeofJs record = jstr "object" ∧
       requiredFieldOk record (jstr "name") = true ∧
       requiredFieldOk record (jstr "country") = true ∧
       ∃ idv, generateId record = .ok idv ∧
         validateTransformedRecord (buildCanon record now idv) = true ∧
         c = buildCanon record now idv) := by
  have notNotBool : ∀ b : Bool, ¬((!b) = true) → b = true := by decide
  constructor
  · intro h
    unfold transformRecord at h
    split at h
    · cases h
    next hgate =>
      split at h
      · cases h
      next hname =>
        split at h
        · cases h
        next hcountry =>
          have h1 : truthy record = true := by
            by_contra hh
            rw [Bool.not_eq_true] at hh
            exact hgate (by simp [hh])
          have h2 : typeofJs record = jstr "object" := by
            by_contra hh
            exact hgate (by simp [hh])
          cases hg : generateId record with
          | error e => rw [hg] at h; cases h
          | ok idv =>
            rw [hg] at h
            dsimp only at h
            split at h
            · cases h
            next hval =>
              refine ⟨h1, h2, notNotBool _ hname, notNotBool _ hcountry,
                idv, rfl, notNotBool _ hval, ?_⟩
              cases h; rfl
  · rintro ⟨h1, h2, h3, h4, idv, h5, h6, h7⟩
    unfold transformRecord
    rw [if_neg (by simp [h1, h2]), if_neg (by simp [h3]), if_neg (by simp [h4]),
      h5]
    dsimp only
    rw [if_neg (by simp [h6]), h7]

/-- `generateId` only reads the name, country and state-province fields. -/
theorem generateId_congr (r₁ r₂ : JsVal)
    (hn : jsGet r₁ (jstr "name") = jsGet r₂ (jstr "name"))
    (hc : jsGet r₁ (jstr "country") = jsGet r₂ (jstr "country"))
    (hs : jsGet r₁ (jstr "state-province") = jsGet r₂ (jstr "state-province")) :
    generateId r₁ = generateId r₂ := by
  unfold generateId
  rw [hn, hc, hs]

/-- Looking up a key after `setField`. -/
theorem lookupField_setField (fields : List (List Char × JsVal))
    (key k : List Char) (v : JsVal) :
    lookupField (setField fields key v) k =
      if k = key then some v else lookupField fields k := by
  induction fields with
  | nil =>
    by_cases h : k = key
    · subst h; simp [setField, lookupField]
    · simp [setField, lookupField, h, Ne.symm h]
  | cons kv rest ih =>
    obtain ⟨k₀, w⟩ := kv
    by_cases h0 : k₀ = key
    · subst h0
      by_cases h : k = k₀
      · subst h; simp [setField, lookupField]
      · simp [setField, lookupField, h, Ne.symm h]
    · by_cases h : k₀ = k
      · subst h
        have hne : ¬(k₀ = key) := h0
        simp [setField, lookupField, h0, Ne.symm hne]
      · simp [setField, lookupField, h0, h, ih]

/-- Property read after `setField`. -/
theorem jsGet_setField (fields : List (List Char × JsVal))
    (key k : List Char) (v : JsVal) :
    jsGet (.obj (setField fields key v)) k =
      if k = key then v else jsGet (.obj fields) k := by
  simp only [jsGet, lookupField_setField]
  split <;> simp

/-- A non-array domains value yields the empty domain list. -/
theorem transformDomains_nonarray (v : JsVal) (h : isArrVal v = false) :
    transformDomains v = [] := by
  cases v <;> simp [transformDomains] <;> cases h

/-- A non-array web-pages value yields the empty web-page list. -/
theorem transformWebPages_nonarray (v : JsVal) (h : isArrVal v = false) :
    transformWebPages v = [] := by
  cases v <;> simp [transformWebPages] <;> cases h

/-- C10: a missing or non-array domains (or web_pages) value turns into an
empty list on the transformed record, and replacing the domains or
web_pages field of an accepted record by an arbitrary value never causes
the record to be rejected. -/
theorem malformed_list_fields :
    (∀ (record : JsVal) (i : Nat) (now : List Char) (c : Canon),
        transformRecord record i now = .ok c →
        (isArrVal (jsGet record (jstr "domains")) = false → c.domains = []) ∧
        (isArrVal (jsGet record (jstr "web_pages")) = false → c.webPages = [])) ∧
    (∀ (fields : List (List Char × JsVal)) (key : List Char) (v : JsVal)
        (i : Nat) (now : List Char) (c : Canon),
        key = jstr "domains" ∨ key = jstr "web_pages" →
        transformRecord (.obj fields) i now = .ok c →
        ∃ c₂, transformRecord (.obj (setField fields key v)) i now = .ok c₂ ∧
          c₂.id = c.id ∧ c₂.name = c.name ∧ c₂.country = c.country) := by
  constructor
  · intro record i now c h
    obtain ⟨_, _, _, _, idv, _, _, hc⟩ := (transformRecord_ok_iff _ _ _ _).1 h
    subst hc
    exact ⟨fun hd => by simp [buildCanon, transformDomains_nonarray _ hd],
           fun hw => by simp [buildCanon, transformWebPages_nonarray _ hw]⟩
  · intro fields key v i now c hkey h
    obtain ⟨_, _, h3, h4, idv, h5, h6, h7⟩ := (transformRecord_ok_iff _ _ _ _).1 h
    have hkn : (jstr "name") ≠ key := by
      rcases hkey with h | h <;> subst h <;> decide
    have hkc : (jstr "country") ≠ key := by
      rcases hkey with h | h <;> subst h <;> decide
    have hks : (jstr "state-province") ≠ key := by
      rcases hkey with h | h <;> subst h <;> decide
    have hka : (jstr "alpha_two_code") ≠ key := by
      rcases hkey with h | h <;> subst h <;> decide
    have gn := jsGet_setField fields key (jstr "name") v
    rw [if_neg hkn] at gn
    have gc := jsGet_setField fields key (jstr "country") v
    rw [if_neg hkc] at gc
    have gs := jsGet_setField fields key (jstr "state-province") v
    rw [if_neg hks] at gs
    have ga := jsGet_setField fields key (jstr "alpha_two_code") v
    rw [if_neg hka] at ga
    have hgen : generateId (.obj (setField fields key v)) = .ok idv := by
      rw [generateId_congr (.obj (setField fields key v)) (.obj fields) gn gc gs,
        h5]
    have hval : validateTransformedRecord
        (buildCanon (.obj (setField fields key v)) now idv) = true := by
      simpa [validateTransformedRecord, buildCanon, gn, gc] using h6
    refine ⟨buildCanon (.obj (setField fields key v)) now idv,
      (transformRecord_ok_iff _ _ _ _).2
        ⟨rfl, rfl, by simpa [requiredFieldOk, gn] using h3,
         by simpa [requiredFieldOk, gc] using h4, idv, hgen, hval, rfl⟩,
      ?_, ?_, ?_⟩ <;> simp [buildCanon, gn, gc, h7]

/-- Witness for the C10 theorem: setting the domains field of an accepted
record to a number keeps it accepted. -/
theorem malformed_list_fields_witness :
    ∃ c₂, transformRecord
        (.obj (setField sampleFields (jstr "domains") (.num 5))) 0 (jstr "t") =
        .ok c₂ ∧
      c₂.id = (buildCanon sampleRaw (jstr "t")
        (jstr "united-states-new-york-test-university")).id ∧
      c₂.name = (buildCanon sampleRaw (jstr "t")
        (jstr "united-states-new-york-test-university")).name ∧
      c₂.country = (buildCanon sampleRaw (jstr "t")
        (jstr "united-states-new-york-test-university")).country :=
  malformed_list_fields.2 sampleFields (jstr "domains") (.num 5) 0 (jstr "t")
    (buildCanon sampleRaw (jstr "t")
      (jstr "united-states-new-york-test-university"))
    (Or.inl rfl) (by rfl)

/-- C5: a manual trigger while the gate is set fails immediately with the
already-running outcome and leaves the history untouched; every completed
firing (manual or scheduled, success or failure) clears the gate and
prepends exactly one outcome, truncating the history to the cap of 10,
most recent first. -/
theorem scheduler_gate_and_history :
    (∀ (st : SchedulerState) (etl : Except (List Char) RunSummary)
        (ts : List Char) (dur : Nat), st.running = true →
        runManualStep st etl ts dur = (st, .alreadyRunning)) ∧
    (∀ (st : SchedulerState) (etl : Except (List Char) RunSummary)
        (ts : List Char) (dur : Nat), st.running = false →
        ∃ entry out, runManualStep st etl ts dur =
          ({ running := false,
             history := (entry :: st.history).take historyCap }, out) ∧
          (out = ManualOutcome.completed entry ∨
           out = ManualOutcome.threwRecord entry)) ∧
    (∀ (st : SchedulerState) (etl : Except (List Char) RunSummary)
        (ts : List Char) (dur : Nat), st.running = false →
        ∃ entry, runETLStep st etl ts dur =
          { running := false,
            history := (entry :: st.history).take historyCap }) := by
  refine ⟨?_, ?_, ?_⟩ <;> intro st etl ts dur h
  · simp [runManualStep, h]
  · cases etl with
    | ok r =>
        refine ⟨⟨ts, true, dur, some r.loaded, none, some (jstr "manual")⟩,
          .completed ⟨ts, true, dur, some r.loaded, none, some (jstr "manual")⟩,
          ?_, Or.inl rfl⟩
        simp [runManualStep, h]
    | error e =>
        refine ⟨⟨ts, false, dur, none, some e, some (jstr "manual")⟩,
          .threwRecord ⟨ts, false, dur, none, some e, some (jstr "manual")⟩,
          ?_, Or.inr rfl⟩
        simp [runManualStep, h]
  · cases etl with
    | ok r =>
        exact ⟨⟨ts, true, dur, some r.loaded, none, none⟩,
          by simp [runETLStep, h]⟩
    | error e =>
        exact ⟨⟨ts, false, dur, none, some e, none⟩,
          by simp [runETLStep, h]⟩

/-- Witness for the C5 theorem at concrete states: a busy scheduler rejects
the manual trigger unchanged, and an idle one records one outcome. -/
theorem scheduler_gate_and_history_witness :
    runManualStep ⟨true, []⟩ (.error (jstr "boom")) (jstr "ts") 7 =
      (⟨true, []⟩, .alreadyRunning) ∧
    ∃ entry out,
      runManualStep ⟨false, []⟩ (.error (jstr "boom")) (jstr "ts") 7 =
        ({ running := false, history := ([entry] : List HistEntry).take historyCap },
         out) ∧
      (out = ManualOutcome.completed entry ∨
       out = ManualOutcome.threwRecord entry) := by
  constructor
  · exact scheduler_gate_and_history.1 ⟨true, []⟩ (.error (jstr "boom"))
      (jstr "ts") 7 rfl
  · exact scheduler_gate_and_history.2.1 ⟨false, []⟩ (.error (jstr "boom"))
      (jstr "ts") 7 rfl

/-- When every remaining attempt fails, the retry loop exhausts its fuel
and reports the wrapped message built from the last attempt error. -/
theorem extractGo_all_fail (oracle : Nat → Except (List Char) JsVal)
    (total : Nat) :
    ∀ (fuel attempt : Nat) (e₀ : Option (List Char)), 1 ≤ fuel →
      (∀ j, j < fuel → ∃ e, attemptOutcome (oracle (attempt + j)) = .error e) →
      ∃ e, attemptOutcome (oracle (attempt + fuel - 1)) = .error e ∧
        extractGo oracle total fuel attempt e₀ =
          .error (extractFailMsg total e) := by
  intro fuel
  induction fuel with
  | zero => intro attempt e₀ h; omega
  | succ f ih =>
    intro attempt e₀ _ hall
    obtain ⟨e, he⟩ := hall 0 (by omega)
    rw [Nat.add_zero] at he
    by_cases hf : f = 0
    · subst hf
      refine ⟨e, by simpa using he, ?_⟩
      simp [extractGo, he]
    · obtain ⟨e₂, he₂, hgo⟩ := ih (attempt + 1) (some e) (by omega)
        (fun j hj => by
          have := hall (j + 1) (by omega)
          rwa [show attempt + (j + 1) = attempt + 1 + j by omega] at this)
      refine ⟨e₂, ?_, ?_⟩
      · rwa [show attempt + 1 + f - 1 = attempt + (f + 1) - 1 by omega] at he₂
      · simp [extractGo, he, hgo]

/-- The retry loop consults the oracle only on the remaining attempt
numbers. -/
theorem extractGo_congr (o₁ o₂ : Nat → Except (List Char) JsVal)
    (total : Nat) :
    ∀ (fuel attempt : Nat) (e₀ : Option (List Char)),
      (∀ k, attempt ≤ k → k < attempt + fuel → o₁ k = o₂ k) →
      extractGo o₁ total fuel attempt e₀ = extractGo o₂ total fuel attempt e₀ := by
  intro fuel
  induction fuel with
  | zero => intro attempt e₀ _; rfl
  | succ f ih =>
    intro attempt e₀ hag
    have h0 : o₁ attempt = o₂ attempt := hag attempt le_rfl (by omega)
    simp only [extractGo, h0]
    cases hA : attemptOutcome (o₂ attempt) with
    | ok xs => simp [hA]
    | error e =>
        simp only [hA]
        exact ih (attempt + 1) (some e)
          (fun k hk1 hk2 => hag k (by omega) (by omega))

/-- Every outcome of the retry loop is either a success or the wrapped
exhaustion error. -/
theorem extractGo_shape (oracle : Nat → Except (List Char) JsVal)
    (total : Nat) :
    ∀ (fuel attempt : Nat) (e₀ : Option (List Char)),
      (1 ≤ fuel ∨ ∃ m, e₀ = some m) →
      (∃ xs, extractGo oracle total fuel attempt e₀ = .ok xs) ∨
      (∃ m, extractGo oracle total fuel attempt e₀ =
        .error (extractFailMsg total m)) := by
  intro fuel
  induction fuel with
  | zero =>
    intro attempt e₀ h
    rcases h with h | ⟨m, hm⟩
    · omega
    · subst hm
      exact Or.inr ⟨m, rfl⟩
  | succ f ih =>
    intro attempt e₀ _
    simp only [extractGo]
    cases hA : attemptOutcome (oracle attempt) with
    | ok xs => exact Or.inl ⟨xs, by simp [hA]⟩
    | error e =>
        rcases ih (attempt + 1) (some e) (Or.inr ⟨e, rfl⟩) with ⟨xs, hx⟩ | ⟨m, hm⟩
        · exact Or.inl ⟨xs, by simp [hA, hx]⟩
        · exact Or.inr ⟨m, by simp [hA, hm]⟩

/-- C6: when every attempt fails (a non-array response counting exactly
like a transport failure), `extractData` makes exactly `retryAttempts`
attempts and throws the error naming the attempt count and wrapping the
last attempt error; a success or that wrapped error are its only outcomes. -/
theorem extractData_exhaustion (oracle : Nat → Except (List Char) JsVal)
    (n : Nat) (hn : 1 ≤ n) :
    ((∀ k, 1 ≤ k → k ≤ n → ∃ e, attemptOutcome (oracle k) = .error e) →
       ∃ eLast, attemptOutcome (oracle n) = .error eLast ∧
         extractData oracle n = .error (extractFailMsg n eLast)) ∧
    (∀ oracle₂ : Nat → Except (List Char) JsVal,
       (∀ k, 1 ≤ k → k ≤ n → oracle₂ k = oracle k) →
       extractData oracle₂ n = extractData oracle n) ∧
    ((∃ xs, extractData oracle n = .ok xs) ∨
     (∃ m, extractData oracle n = .error (extractFailMsg n m))) := by
  refine ⟨?_, ?_, ?_⟩
  · intro hall
    obtain ⟨e, he, hgo⟩ := extractGo_all_fail oracle n n 1 none hn
      (fun j hj => hall (1 + j) (by omega) (by omega))
    refine ⟨e, ?_, hgo⟩
    rwa [show 1 + n - 1 = n by omega] at he
  · intro oracle₂ hag
    exact extractGo_congr oracle₂ oracle n n 1 none
      (fun k hk1 hk2 => hag k hk1 (by omega))
  · exact extractGo_shape oracle n n 1 none (Or.inl hn)

/-- Witness for the C6 theorem: a transport that always fails exhausts the
default three attempts with the wrapped message. -/
theorem extractData_exhaustion_witness :
    extractData (fun _ => .error (jstr "Network error")) 3 =
      .error (extractFailMsg 3 (jstr "Network error")) := by
  obtain ⟨eLast, he, hgo⟩ :=
    (extractData_exhaustion (fun _ => .error (jstr "Network error")) 3
      (by omega)).1
    (fun k _ _ => ⟨jstr "Network error", rfl⟩)
  have : eLast = jstr "Network error" := by
    have h2 : (Except.error (jstr "Network error") :
        Except (List Char) (List JsVal)) = .error eLast := he
    cases h2; rfl
  rw [hgo, this]

/-- C8 counterexample: at attempt 5 with the default base 1000 and cap
10000 (and a legal jitter of 0) the computed delay is 10000, which does not
lie in the claimed interval from 16000 to 17000. -/
theorem calculateRetryDelay_claim_false :
    calculateRetryDelay 1000 10000 5 0 = 10000 ∧
    ¬((1000 : ℚ) * 2 ^ (5 - 1) ≤ calculateRetryDelay 1000 10000 5 0) := by
  constructor
  · unfold calculateRetryDelay
    norm_num
  · unfold calculateRetryDelay
    norm_num

/-- C8 (amended): for every attempt k and jitter in the unit interval of
1000ms, the computed delay lies between min(base·2^(k-1), max) and
min(base·2^(k-1) + 1000, max); in particular it never exceeds the cap. -/
theorem calculateRetryDelay_bounds (base maxDelay : ℚ) (k : Nat) (j : ℚ)
    (hk : 1 ≤ k) (h0 : 0 ≤ j) (h1 : j < 1000) :
    min (base * 2 ^ (k - 1)) maxDelay ≤ calculateRetryDelay base maxDelay k j ∧
    calculateRetryDelay base maxDelay k j ≤
      min (base * 2 ^ (k - 1) + 1000) maxDelay ∧
    calculateRetryDelay base maxDelay k j ≤ maxDelay := by
  unfold calculateRetryDelay
  refine ⟨min_le_min (by linarith) le_rfl,
    min_le_min (by linarith) le_rfl, min_le_right _ _⟩

/-- Witness for the C8 theorem: attempt 1 with the default parameters and
jitter 0 is bounded between 1000 and 2000. -/
theorem calculateRetryDelay_bounds_witness :
    (1000 : ℚ) ≤ calculateRetryDelay 1000 10000 1 0 ∧
    calculateRetryDelay 1000 10000 1 0 ≤ 2000 := by
  obtain ⟨hlo, hhi, _⟩ :=
    calculateRetryDelay_bounds 1000 10000 1 0 (by norm_num) (by norm_num)
      (by norm_num)
  constructor
  · calc (1000 : ℚ) = min ((1000 : ℚ) * 2 ^ (1 - 1)) 10000 := by norm_num
      _ ≤ _ := hlo
  · calc calculateRetryDelay 1000 10000 1 0
        ≤ min ((1000 : ℚ) * 2 ^ (1 - 1) + 1000) 10000 := hhi
      _ ≤ 2000 := by norm_num

/-- C3 counterexample: on a sequence whose first element carries name and
country keys with empty values, the validator returns true although the
claimed condition (non-empty name and country) is false. -/
theorem validateExtractedData_claim_false :
    validateExtractedData
        (.arr [.obj [(jstr "name", .str []), (jstr "country", .str [])]]) =
      .ok true ∧
    claimWellFormed
        (.arr [.obj [(jstr "name", .str []), (jstr "country", .str [])]]) =
      false := by
  constructor
  · rfl
  · rfl

/-- C3 (amended): the validator returns true exactly when the input is a
sequence that is empty or whose first element is an object carrying the
name and country keys, with no constraint on their values (a primitive
first element makes the `in` operator throw instead of returning false). -/
theorem validateExtractedData_iff (d : JsVal) :
    validateExtractedData d = .ok true ↔ amendedWellFormed d = true := by
  cases d with
  | arr elems =>
    cases elems with
    | nil => simp [validateExtractedData, amendedWellFormed]
    | cons sample rest =>
      cases sample with
      | obj fields =>
        cases hn : fields.any (fun kv => kv.1 = jstr "name") with
        | false => simp [validateExtractedData, amendedWellFormed, jsHasProp, hn]
        | true =>
          cases hc : fields.any (fun kv => kv.1 = jstr "country") with
          | false =>
            simp [validateExtractedData, amendedWellFormed, jsHasProp, hn, hc]
          | true =>
            simp [validateExtractedData, amendedWellFormed, jsHasProp, hn, hc]
      | arr xs =>
        have h1 : jsHasProp (.arr xs) (jstr "name") = .ok false := rfl
        simp [validateExtractedData, amendedWellFormed, h1]
      | null => simp [validateExtractedData, amendedWellFormed, jsHasProp]
      | undefined => simp [validateExtractedData, amendedWellFormed, jsHasProp]
      | bool b => simp [validateExtractedData, amendedWellFormed, jsHasProp]
      | num n => simp [validateExtractedData, amendedWellFormed, jsHasProp]
      | str s => simp [validateExtractedData, amendedWellFormed, jsHasProp]
  | null => simp [validateExtractedData, amendedWellFormed]
  | undefined => simp [validateExtractedData, amendedWellFormed]
  | bool b => simp [validateExtractedData, amendedWellFormed]
  | num n => simp [validateExtractedData, amendedWellFormed]
  | str s => simp [validateExtractedData, amendedWellFormed]
  | obj fields => simp [validateExtractedData, amendedWellFormed]

/-- C1 (code bug): for every run in which extraction succeeds, `run()`
throws a TypeError, because it calls `this.extract.validateData` while
`ExtractService` only defines `validateExtractedData`; no run ever reaches
the transform and load stages or returns a success result. -/
theorem etlRun_always_throws (rawData : List JsVal) (now : List Char)
    (duration : Nat) :
    etlRun (.ok rawData) now duration =
      .error (jstr "TypeError: this.extract.validateData is not a function") := by
  have hmem : ¬(jstr "validateData" ∈ extractServiceMethodNames) := by decide
  have hmsg : jstr "TypeError: this.extract." ++ jstr "validateData" ++
      jstr " is not a function" =
      jstr "TypeError: this.extract.validateData is not a function" := by decide
  simp [etlRun, extractServiceCallValidator, hmem, hmsg]

/-- C2 (code bug evaluation): the CSV rendering of a record that carries a
state province and a timestamp has the literal header naming state and
updatedAt, and renders both of those columns empty, because `generateCsv`
reads `record.state` and `record.updatedAt` while canonical records store
`stateProvince` and `lastUpdated`. -/
theorem generateCsv_drops_state_and_timestamp :
    generateCsv [sampleCanon] =
      some (jstr "id,name,country,alphaCode,state,domains,webPages,updatedAt\nunited-states-texas-rice-university,Rice University,United States,US,,rice.edu,https://www.rice.edu,") ∧
    sampleCanon.stateProvince = some (jstr "Texas") ∧
    sampleCanon.lastUpdated = jstr "2024-01-01T00:00:00.000Z" := by
  refine ⟨?_, rfl, rfl⟩
  rfl

/-- Two-step list induction matching the paired-head recursions of the
slug helpers. -/
theorem twoStepInduction {P : List Char → Prop} (nil : P [])
    (single : ∀ c, P [c])
    (cons2 : ∀ c d rest, P (d :: rest) → P (c :: d :: rest)) : ∀ s, P s
  | [] => nil
  | [c] => single c
  | c :: d :: rest =>
      cons2 c d rest (twoStepInduction nil single cons2 (d :: rest))

/-- Collapsing hyphen runs keeps the first character. -/
theorem collapseHyphens_cons : ∀ (rest : List Char) (c : Char),
    ∃ u, collapseHyphens (c :: rest) = c :: u := by
  intro rest
  induction rest with
  | nil => intro c; exact ⟨[], rfl⟩
  | cons d rest ih =>
    intro c
    by_cases hc : c = '-'
    · by_cases hd : d = '-'
      · obtain ⟨u, hu⟩ := ih d
        subst hc; subst hd
        exact ⟨u, by simp [collapseHyphens, hu]⟩
      · exact ⟨collapseHyphens (d :: rest), by simp [collapseHyphens, hc, hd]⟩
    · exact ⟨collapseHyphens (d :: rest), by simp [collapseHyphens, hc]⟩

/-- Unfolding lemma for `noDoubleHyphen` over a cons. -/
theorem noDoubleHyphen_cons_iff (c : Char) (l : List Char) :
    noDoubleHyphen (c :: l) = true ↔
      (noDoubleHyphen l = true ∧ (c = '-' → l.head? ≠ some '-')) := by
  cases l with
  | nil => simp [noDoubleHyphen]
  | cons d rest =>
    by_cases hc : c = '-' <;> by_cases hd : d = '-' <;>
      simp [noDoubleHyphen, hc, hd]

/-- The collapsed string has no two consecutive hyphens. -/
theorem noDoubleHyphen_collapse : ∀ s,
    noDoubleHyphen (collapseHyphens s) = true := by
  refine twoStepInduction ?_ ?_ ?_
  · simp [collapseHyphens, noDoubleHyphen]
  · intro c; simp [collapseHyphens, noDoubleHyphen]
  · intro c d rest ih
    by_cases hc : c = '-'
    · by_cases hd : d = '-'
      · subst hc; subst hd
        simpa [collapseHyphens] using ih
      · obtain ⟨u, hu⟩ := collapseHyphens_cons rest d
        rw [show collapseHyphens (c :: d :: rest) =
            c :: collapseHyphens (d :: rest) from by
          simp [collapseHyphens, hc, hd], hu]
        have hdu : noDoubleHyphen (d :: u) = true := by rw [← hu]; exact ih
        rw [noDoubleHyphen_cons_iff]
        exact ⟨hdu, fun _ => by simp [hd]⟩
    · obtain ⟨u, hu⟩ := collapseHyphens_cons rest d
      rw [show collapseHyphens (c :: d :: rest) =
          c :: collapseHyphens (d :: rest) from by
        simp [collapseHyphens, hc], hu]
      have hdu : noDoubleHyphen (d :: u) = true := by rw [← hu]; exact ih
      rw [noDoubleHyphen_cons_iff]
      exact ⟨hdu, fun hcc => absurd hcc hc⟩

/-- `stripTrailOne` on a cons with a non-empty tail. -/
theorem stripTrailOne_cons (c : Char) (l : List Char) (h : l ≠ []) :
    stripTrailOne (c :: l) = c :: stripTrailOne l := by
  cases l with
  | nil => exact absurd rfl h
  | cons d rest => rfl

/-- `stripTrailOne` only empties the empty or the single-hyphen string. -/
theorem stripTrailOne_eq_nil : ∀ l : List Char,
    stripTrailOne l = [] → l = [] ∨ l = ['-'] := by
  intro l
  cases l with
  | nil => intro _; exact Or.inl rfl
  | cons c rest =>
    cases rest with
    | nil =>
      by_cases hc : c = '-' <;> simp [stripTrailOne, hc]
    | cons d rest2 => simp [stripTrailOne]

/-- A tail of a no-double-hyphen string has no double hyphen. -/
theorem noDoubleHyphen_tail (c : Char) (l : List Char)
    (h : noDoubleHyphen (c :: l) = true) : noDoubleHyphen l = true :=
  ((noDoubleHyphen_cons_iff c l).1 h).1

/-- The head survives `stripTrailOne`, unless everything is stripped. -/
theorem stripTrailOne_head : ∀ l : List Char,
    (stripTrailOne l).head? = l.head? ∨ stripTrailOne l = [] := by
  intro l
  cases l with
  | nil => exact Or.inr rfl
  | cons c rest =>
    cases rest with
    | nil =>
      by_cases hc : c = '-' <;> simp [stripTrailOne, hc]
    | cons d rest2 => simp [stripTrailOne]

/-- `stripTrailOne` preserves the no-double-hyphen property. -/
theorem noDoubleHyphen_stripTrailOne : ∀ l, noDoubleHyphen l = true →
    noDoubleHyphen (stripTrailOne l) = true := by
  refine twoStepInduction ?_ ?_ ?_
  · intro _; simp [stripTrailOne, noDoubleHyphen]
  · intro c _
    by_cases hc : c = '-' <;> simp [stripTrailOne, hc, noDoubleHyphen]
  · intro c d rest ih h
    rw [stripTrailOne_cons c (d :: rest) (by simp)]
    rw [noDoubleHyphen_cons_iff]
    have hdr : noDoubleHyphen (d :: rest) = true := noDoubleHyphen_tail _ _ h
    refine ⟨ih hdr, fun hc => ?_⟩
    rcases stripTrailOne_head (d :: rest) with hh | hh
    · rw [hh]
      simp only [List.head?_cons, ne_eq, Option.some.injEq]
      intro hd
      have := ((noDoubleHyphen_cons_iff c (d :: rest)).1 h).2 hc
      simp [hd] at this
    · rw [hh]; simp

/-- `stripLeadOne` preserves the no-double-hyphen property. -/
theorem noDoubleHyphen_stripLeadOne (l : List Char)
    (h : noDoubleHyphen l = true) :
    noDoubleHyphen (stripLeadOne l) = true := by
  cases l with
  | nil => simpa [stripLeadOne] using h
  | cons c rest =>
    by_cases hc : c = '-' <;> simp only [stripLeadOne, hc] <;> simp only [if_true, if_false]
    · exact noDoubleHyphen_tail _ _ h
    · simpa using h

/-- After `stripLeadOne`, a no-double-hyphen string does not start with a
hyphen. -/
theorem stripLeadOne_head (l : List Char) (h : noDoubleHyphen l = true) :
    (stripLeadOne l).head? ≠ some '-' := by
  cases l with
  | nil => simp [stripLeadOne]
  | cons c rest =>
    by_cases hc : c = '-'
    · rw [show stripLeadOne (c :: rest) = rest from by simp [stripLeadOne, hc]]
      exact ((noDoubleHyphen_cons_iff c rest).1 h).2 hc
    · rw [show stripLeadOne (c :: rest) = c :: rest from by
        simp [stripLeadOne, hc]]
      simpa using hc

/-- After `stripTrailOne`, a no-double-hyphen string does not end with a
hyphen. -/
theorem stripTrailOne_last : ∀ l, noDoubleHyphen l = true →
    (stripTrailOne l).getLast? ≠ some '-' := by
  refine twoStepInduction ?_ ?_ ?_
  · intro _; simp [stripTrailOne]
  · intro c _
    by_cases hc : c = '-' <;> simp [stripTrailOne, hc]
  · intro c d rest ih h
    rw [stripTrailOne_cons c (d :: rest) (by simp)]
    cases hst : stripTrailOne (d :: rest) with
    | nil =>
      rcases stripTrailOne_eq_nil _ hst with hh | hh
      · cases hh
      · have hd : d = '-' := by
          have := congrArg List.head? hh
          simpa using this
        have hc : ¬(c = '-') := by
          intro hc
          have := ((noDoubleHyphen_cons_iff c (d :: rest)).1 h).2 hc
          simp [hd] at this
        simpa using hc
    | cons x xs =>
      rw [List.getLast?_cons_cons]
      rw [← hst]
      exact ih (noDoubleHyphen_tail _ _ h)

/-- Hyphen-placement invariants of the generated id shape. -/
theorem stripEnds_invariants (s : List Char) :
    noDoubleHyphen (stripEnds (collapseHyphens s)) = true ∧
    (stripEnds (collapseHyphens s)).head? ≠ some '-' ∧
    (stripEnds (collapseHyphens s)).getLast? ≠ some '-' := by
  have h0 := noDoubleHyphen_collapse s
  have h1 := noDoubleHyphen_stripLeadOne _ h0
  refine ⟨noDoubleHyphen_stripTrailOne _ h1, ?_, stripTrailOne_last _ h1⟩
  have hh := stripLeadOne_head _ h0
  rcases stripTrailOne_head (stripLeadOne (collapseHyphens s)) with h | h
  · unfold stripEnds; rw [h]; exact hh
  · unfold stripEnds; rw [h]; simp

/-- Every successful `generateId` is a stripped collapse of some raw slug
string. -/
theorem generateId_ok_shape (record : JsVal) (idv : List Char)
    (h : generateId record = .ok idv) :
    ∃ raw, idv = stripEnds (collapseHyphens raw) := by
  unfold generateId at h
  cases h1 : toLowerJs (jsGet record (jstr "name")) with
  | error e => rw [h1] at h; cases h
  | ok nameLower =>
    rw [h1] at h
    cases h2 : toLowerJs (jsGet record (jstr "country")) with
    | error e => rw [h2] at h; cases h
    | ok countryLower =>
      rw [h2] at h
      cases h3 : (if truthy (jsGet record (jstr "state-province")) then
          toLowerJs (jsGet record (jstr "state-province"))
        else .ok ([] : List Char)) with
      | error e => rw [h3] at h; cases h
      | ok stateLower =>
        rw [h3] at h
        dsimp only at h
        cases h
        exact ⟨_, rfl⟩

/-- Tokens ignore a leading hyphen. -/
theorem tokens_hyphen_cons (l : List Char) : tokens ('-' :: l) = tokens l := by
  cases l with
  | nil => rfl
  | cons d rest => simp [tokens]

/-- Tokens of a string with a non-hyphen head start with that head. -/
theorem tokens_cons_ne : ∀ (l : List Char) (d : Char), d ≠ '-' →
    ∃ t ts, tokens (d :: l) = (d :: t) :: ts := by
  intro l d hd
  cases l with
  | nil => exact ⟨[], [], by simp [tokens, hd]⟩
  | cons e rest =>
    cases ht : tokens (e :: rest) with
    | nil => exact ⟨[], [], by simp [tokens, hd, ht]⟩
    | cons t ts =>
      by_cases he : e = '-'
      · subst he
        exact ⟨[], t :: ts, by simp [tokens, hd, ht]⟩
      · exact ⟨t, ts, by simp [tokens, hd, ht, he]⟩

/-- Tokens are non-empty strings. -/
theorem tokens_mem_ne_nil : ∀ s, ∀ t ∈ tokens s, t ≠ [] := by
  refine twoStepInduction ?_ ?_ ?_
  · simp [tokens]
  · intro c
    by_cases hc : c = '-' <;> simp [tokens, hc]
  · intro c d rest ih
    by_cases hc : c = '-'
    · rw [show tokens (c :: d :: rest) = tokens (d :: rest) from by
        simp [tokens, hc]]
      exact ih
    · cases ht : tokens (d :: rest) with
      | nil =>
        rw [show tokens (c :: d :: rest) = [[c]] from by simp [tokens, hc, ht]]
        simp
      | cons t ts =>
        have ih2 : ∀ x ∈ t :: ts, x ≠ [] := by rw [← ht]; exact ih
        by_cases hd : d = '-'
        · subst hd
          rw [show tokens (c :: '-' :: rest) = [c] :: t :: ts from by
            simp [tokens, hc, ht]]
          intro x hx
          rcases List.mem_cons.1 hx with rfl | hx
          · simp
          · exact ih2 x hx
        · rw [show tokens (c :: d :: rest) = (c :: t) :: ts from by
            simp [tokens, hc, ht, hd]]
          intro x hx
          rcases List.mem_cons.1 hx with rfl | hx
          · simp
          · exact ih2 x (List.mem_cons_of_mem _ hx)

/-- `hyphenJoin` of a cons with a non-empty tail. -/
theorem hyphenJoin_cons (t : List Char) (ts : List (List Char)) (h : ts ≠ []) :
    hyphenJoin (t :: ts) = t ++ '-' :: hyphenJoin ts := by
  cases ts with
  | nil => exact absurd rfl h
  | cons a as => rfl

/-- Prepending a character to the first token prepends it to the join. -/
theorem hyphenJoin_cons_head (c : Char) (t : List Char)
    (ts : List (List Char)) :
    hyphenJoin ((c :: t) :: ts) = c :: hyphenJoin (t :: ts) := by
  cases ts with
  | nil => rfl
  | cons a as => rfl

/-- `hyphenJoin` distributes over appending non-empty token lists. -/
theorem hyphenJoin_append : ∀ (xs ys : List (List Char)), xs ≠ [] → ys ≠ [] →
    hyphenJoin (xs ++ ys) = hyphenJoin xs ++ '-' :: hyphenJoin ys := by
  intro xs
  induction xs with
  | nil => intro ys h _; exact absurd rfl h
  | cons x xs ih =>
    intro ys _ hy
    cases xs with
    | nil =>
      rw [show ([x] : List (List Char)) ++ ys = x :: ys from rfl,
        hyphenJoin_cons x ys hy]
      rfl
    | cons x2 xs2 =>
      rw [show (x :: x2 :: xs2) ++ ys = x :: ((x2 :: xs2) ++ ys) from rfl,
        hyphenJoin_cons x _ (by simp),
        ih ys (by simp) hy,
        hyphenJoin_cons x (x2 :: xs2) (by simp)]
      simp

/-- A hyphen-join of non-empty tokens is empty only for the empty list. -/
theorem hyphenJoin_eq_nil (ts : List (List Char))
    (hne : ∀ t ∈ ts, t ≠ []) (h : hyphenJoin ts = []) : ts = [] := by
  cases ts with
  | nil => rfl
  | cons t ts2 =>
    cases ts2 with
    | nil =>
      exact absurd (by simpa [hyphenJoin] using h) (hne t (by simp))
    | cons a as =>
      rw [hyphenJoin_cons t _ (by simp)] at h
      simp at h

/-- The stripped collapse of any string is the hyphen-join of its maximal
hyphen-free runs. -/
theorem stripEnds_collapse_eq_join : ∀ s,
    stripEnds (collapseHyphens s) = hyphenJoin (tokens s) := by
  refine twoStepInduction ?_ ?_ ?_
  · rfl
  · intro c
    by_cases hc : c = '-' <;>
      simp [collapseHyphens, stripEnds, stripLeadOne, stripTrailOne, tokens,
        hyphenJoin, hc]
  · intro c d rest ih
    by_cases hc : c = '-'
    · by_cases hd : d = '-'
      · rw [show collapseHyphens (c :: d :: rest) = collapseHyphens (d :: rest)
          from by simp [collapseHyphens, hc, hd],
          show tokens (c :: d :: rest) = tokens (d :: rest) from by
            simp [tokens, hc]]
        exact ih
      · obtain ⟨u, hu⟩ := collapseHyphens_cons rest d
        rw [show collapseHyphens (c :: d :: rest) =
            c :: collapseHyphens (d :: rest) from by
          simp [collapseHyphens, hc, hd],
          show tokens (c :: d :: rest) = tokens (d :: rest) from by
            simp [tokens, hc]]
        unfold stripEnds
        rw [show stripLeadOne (c :: collapseHyphens (d :: rest)) =
            collapseHyphens (d :: rest) from by simp [stripLeadOne, hc]]
        rw [← ih]
        unfold stripEnds
        rw [show stripLeadOne (collapseHyphens (d :: rest)) =
            collapseHyphens (d :: rest) from by rw [hu]; simp [stripLeadOne, hd]]
    · by_cases hd : d = '-'
      · subst hd
        obtain ⟨u, hu⟩ := collapseHyphens_cons rest '-'
        have hcol : collapseHyphens (c :: '-' :: rest) =
            c :: collapseHyphens ('-' :: rest) := by
          simp [collapseHyphens, hc]
        have hnd : noDoubleHyphen (collapseHyphens ('-' :: rest)) = true :=
          noDoubleHyphen_collapse ('-' :: rest)
        have hihu : stripTrailOne u = hyphenJoin (tokens ('-' :: rest)) := by
          have h2 := ih
          unfold stripEnds at h2
          rw [hu] at h2
          simpa [stripLeadOne] using h2
        have hhead : u.head? ≠ some '-' := by
          rw [hu] at hnd
          exact ((noDoubleHyphen_cons_iff '-' u).1 hnd).2 rfl
        cases u with
        | nil =>
          have htoksnil : tokens ('-' :: rest) = [] :=
            hyphenJoin_eq_nil _ (tokens_mem_ne_nil ('-' :: rest))
              (by simpa [stripTrailOne] using hihu.symm)
          rw [show tokens (c :: '-' :: rest) = [[c]] from by
            simp [tokens, hc, htoksnil], hcol, hu]
          unfold stripEnds
          rw [show stripLeadOne (c :: '-' :: ([] : List Char)) =
            c :: '-' :: [] from by simp [stripLeadOne, hc]]
          simp [stripTrailOne, hyphenJoin]
        | cons v u2 =>
          have hv : ¬(v = '-') := by simpa using hhead
          have hstu : stripTrailOne (v :: u2) ≠ [] := by
            intro hnil
            rcases stripTrailOne_eq_nil _ hnil with hh | hh
            · cases hh
            · exact hv (by
                have := congrArg List.head? hh
                simpa using this)
          have htoks : tokens ('-' :: rest) ≠ [] := by
            intro hnil
            rw [hnil] at hihu
            exact hstu (by simpa [hyphenJoin] using hihu)
          cases htk : tokens ('-' :: rest) with
          | nil => exact absurd htk htoks
          | cons t ts =>
            rw [show tokens (c :: '-' :: rest) = [c] :: t :: ts from by
              simp [tokens, hc, htk], hcol, hu]
            unfold stripEnds
            rw [show stripLeadOne (c :: '-' :: v :: u2) = c :: '-' :: v :: u2
              from by simp [stripLeadOne, hc]]
            rw [show stripTrailOne (c :: '-' :: v :: u2) =
                c :: stripTrailOne ('-' :: v :: u2) from
              stripTrailOne_cons c _ (by simp)]
            rw [show stripTrailOne ('-' :: v :: u2) =
                '-' :: stripTrailOne (v :: u2) from
              stripTrailOne_cons '-' _ (by simp)]
            rw [show stripTrailOne (v :: u2) = hyphenJoin (t :: ts) from by
              rw [← htk]; exact hihu]
            rw [hyphenJoin_cons [c] (t :: ts) (by simp)]
            rfl
      · obtain ⟨t, ts, ht⟩ := tokens_cons_ne rest d hd
        obtain ⟨u, hu⟩ := collapseHyphens_cons rest d
        have hcol : collapseHyphens (c :: d :: rest) =
            c :: collapseHyphens (d :: rest) := by
          simp [collapseHyphens, hc]
        have htok : tokens (c :: d :: rest) = (c :: d :: t) :: ts := by
          simp [tokens, hc, ht, hd]
        have hlead : stripLeadOne (collapseHyphens (d :: rest)) =
            collapseHyphens (d :: rest) := by
          rw [hu]; simp [stripLeadOne, hd]
        have hih : stripTrailOne (collapseHyphens (d :: rest)) =
            hyphenJoin ((d :: t) :: ts) := by
          have h2 := ih
          unfold stripEnds at h2
          rw [hlead, ht] at h2
          exact h2
        rw [hcol, htok]
        unfold stripEnds
        rw [show stripLeadOne (c :: collapseHyphens (d :: rest)) =
            c :: collapseHyphens (d :: rest) from by simp [stripLeadOne, hc]]
        rw [stripTrailOne_cons c _ (by rw [hu]; simp)]
        rw [hih, hyphenJoin_cons_head c (d :: t) ts, hyphenJoin_cons_head d t ts]

/-- Tokens split at a separating hyphen. -/
theorem tokens_append : ∀ (a b : List Char),
    tokens (a ++ '-' :: b) = tokens a ++ tokens b := by
  intro a
  induction a using twoStepInduction with
  | nil => intro b; simpa using tokens_hyphen_cons b
  | single c =>
    intro b
    by_cases hc : c = '-'
    · subst hc
      rw [show (['-'] : List Char) ++ '-' :: b = '-' :: '-' :: b from rfl,
        tokens_hyphen_cons, tokens_hyphen_cons]
      simp [tokens]
    · rw [show ([c] : List Char) ++ '-' :: b = c :: '-' :: b from rfl]
      cases htb : tokens b with
      | nil => simp [tokens, hc, tokens_hyphen_cons, htb]
      | cons t ts => simp [tokens, hc, tokens_hyphen_cons, htb]
  | cons2 c d rest ih =>
    intro b
    by_cases hc : c = '-'
    · subst hc
      rw [show ('-' :: d :: rest) ++ '-' :: b = '-' :: ((d :: rest) ++ '-' :: b)
        from rfl, tokens_hyphen_cons, tokens_hyphen_cons, ih b]
    · by_cases hd : d = '-'
      · subst hd
        have hihb := ih b
        rw [show ('-' :: rest) ++ '-' :: b = '-' :: (rest ++ '-' :: b) from rfl,
          tokens_hyphen_cons, tokens_hyphen_cons] at hihb
        rw [show (c :: '-' :: rest) ++ '-' :: b = c :: '-' :: (rest ++ '-' :: b)
          from rfl]
        cases htr : tokens rest with
        | nil =>
          cases htb : tokens b with
          | nil => simp [tokens, hc, tokens_hyphen_cons, hihb, htr, htb]
          | cons t ts => simp [tokens, hc, tokens_hyphen_cons, hihb, htr, htb]
        | cons t ts => simp [tokens, hc, tokens_hyphen_cons, hihb, htr]
      · obtain ⟨t, ts, ht⟩ := tokens_cons_ne rest d hd
        obtain ⟨t2, ts2, ht2⟩ := tokens_cons_ne (rest ++ '-' :: b) d hd
        have hihb := ih b
        rw [show (d :: rest) ++ '-' :: b = d :: (rest ++ '-' :: b) from rfl,
          ht2, ht] at hihb
        have ht2b : tokens (d :: (rest ++ '-' :: b)) =
            (d :: t) :: (ts ++ tokens b) := by
          rw [ht2]; exact hihb
        rw [show (c :: d :: rest) ++ '-' :: b = c :: d :: (rest ++ '-' :: b)
          from rfl]
        simp [tokens, hc, hd, ht2b, ht]

/-- On no-double-hyphen strings, stripping all leading hyphens is the same
as stripping one. -/
theorem stripAllLead_eq (l : List Char) (h : noDoubleHyphen l = true) :
    stripAllLead l = stripLeadOne l := by
  cases l with
  | nil => rfl
  | cons c rest =>
    by_cases hc : c = '-'
    · subst hc
      rw [show stripLeadOne ('-' :: rest) = rest from by simp [stripLeadOne]]
      cases rest with
      | nil => simp [stripAllLead]
      | cons d rest2 =>
        have hd : ¬(d = '-') := by
          have := ((noDoubleHyphen_cons_iff '-' (d :: rest2)).1 h).2 rfl
          simpa using this
        simp [stripAllLead, List.dropWhile, hd]
    · simp [stripAllLead, List.dropWhile, hc, stripLeadOne]

/-- On no-double-hyphen strings, stripping all trailing hyphens is the same
as stripping one. -/
theorem stripAllTrail_eq : ∀ l, noDoubleHyphen l = true →
    stripAllTrail l = stripTrailOne l := by
  refine twoStepInduction ?_ ?_ ?_
  · intro _; rfl
  · intro c _
    by_cases hc : c = '-' <;> simp [stripAllTrail, stripTrailOne, hc]
  · intro c d rest ih h
    have hdr := noDoubleHyphen_tail _ _ h
    have ih2 := ih hdr
    rw [stripTrailOne_cons c _ (by simp)]
    conv_lhs => rw [stripAllTrail]
    rw [ih2]
    by_cases hcond : stripTrailOne (d :: rest) = [] ∧ c = '-'
    · obtain ⟨hemp, hcc⟩ := hcond
      rcases stripTrailOne_eq_nil _ hemp with hh | hh
      · cases hh
      · have hd : d = '-' := by
          have := congrArg List.head? hh
          simpa using this
        subst hcc; subst hd
        have := ((noDoubleHyphen_cons_iff '-' ('-' :: rest)).1 h).2 rfl
        simp at this
    · rw [if_neg (by
        intro hx
        simp only [Bool.and_eq_true, List.isEmpty_iff, decide_eq_true_eq] at hx
        exact hcond hx)]

/-- The spec slugify is the hyphen-join of the tokens of the per-character
slug replacement. -/
theorem slugSpec_eq_join (s : List Char) :
    slugSpec s = hyphenJoin (tokens (percharSlug (lowerChars s))) := by
  unfold slugSpec
  have h0 := noDoubleHyphen_collapse (percharSlug (lowerChars s))
  rw [stripAllLead_eq _ h0,
    stripAllTrail_eq _ (noDoubleHyphen_stripLeadOne _ h0)]
  exact stripEnds_collapse_eq_join (percharSlug (lowerChars s))

/-- A non-empty spec slug means a non-empty token list. -/
theorem tokens_ne_of_slug_ne (s : List Char) (h : slugSpec s ≠ []) :
    tokens (percharSlug (lowerChars s)) ≠ [] := by
  intro hnil
  apply h
  rw [slugSpec_eq_join, hnil]
  rfl

/-- Evaluation of `generateId` on a record with string name and country. -/
theorem generateId_eval (record : JsVal) (n c : List Char)
    (hn : jsGet record (jstr "name") = .str n)
    (hc : jsGet record (jstr "country") = .str c) :
    (truthy (jsGet record (jstr "state-province")) = false →
       generateId record = .ok (stripEnds (collapseHyphens
         (percharSlug (lowerChars c) ++ '-' :: percharSlug (lowerChars n))))) ∧
    (∀ s, jsGet record (jstr "state-province") = .str s → s ≠ [] →
       generateId record = .ok (stripEnds (collapseHyphens
         (percharSlug (lowerChars c) ++ '-' ::
           (percharSlug (lowerChars s) ++ '-' :: percharSlug (lowerChars n)))))) := by
  constructor
  · intro hst
    unfold generateId
    rw [hn, hc, hst]
    simp [toLowerJs, percharSlug]
  · intro s hs hsne
    unfold generateId
    rw [hn, hc, hs]
    have htr : truthy (JsVal.str s) = true := by
      simpa [truthy] using hsne
    rw [htr]
    have hne2 : (percharSlug (lowerChars s)).isEmpty = false := by
      simp [percharSlug, lowerChars, List.isEmpty_iff, hsne]
    simp only [if_true, toLowerJs]
    simp [hne2, List.append_assoc]

/-- C7 counterexample: the record with name consisting of three bangs and
country usa is accepted with id usa, but the claimed composition of the
slugified parts joined by hyphens yields usa followed by a hyphen. -/
theorem generateId_claim_false :
    generateId (.obj [(jstr "name", .str (jstr "!!!")),
        (jstr "country", .str (jstr "usa"))]) = .ok (jstr "usa") ∧
    jstr "usa" ≠ slugSpec (jstr "usa") ++ '-' :: slugSpec (jstr "!!!") := by
  constructor
  · rfl
  · decide

/-- C7 (amended): every generated id has no leading, trailing or double
hyphen; and when name, country (and state-province, when present and
truthy) have non-empty slugs, the id is the slugified country, then the
slugified state-province when present, then the slugified name, joined by
single hyphens. -/
theorem generateId_slug_properties :
    (∀ (record : JsVal) (idv : List Char), generateId record = .ok idv →
        noDoubleHyphen idv = true ∧ idv.head? ≠ some '-' ∧
        idv.getLast? ≠ some '-') ∧
    (∀ (record : JsVal) (n c : List Char),
        jsGet record (jstr "name") = .str n →
        jsGet record (jstr "country") = .str c →
        n ≠ [] → c ≠ [] → slugSpec n ≠ [] → slugSpec c ≠ [] →
        ((truthy (jsGet record (jstr "state-province")) = false →
            generateId record = .ok (slugSpec c ++ '-' :: slugSpec n)) ∧
         (∀ s, jsGet record (jstr "state-province") = .str s → s ≠ [] →
            slugSpec s ≠ [] →
            generateId record =
              .ok (slugSpec c ++ '-' :: slugSpec s ++ '-' :: slugSpec n)))) := by
  constructor
  · intro record idv h
    obtain ⟨raw, hraw⟩ := generateId_ok_shape record idv h
    rw [hraw]
    exact stripEnds_invariants raw
  · intro record n c hn hc _ _ hsn hsc
    obtain ⟨hnostate, hstate⟩ := generateId_eval record n c hn hc
    constructor
    · intro hst
      rw [hnostate hst]
      rw [stripEnds_collapse_eq_join, tokens_append,
        hyphenJoin_append _ _ (tokens_ne_of_slug_ne c hsc)
          (tokens_ne_of_slug_ne n hsn),
        ← slugSpec_eq_join, ← slugSpec_eq_join]
    · intro s hs hsne hss
      rw [hstate s hs hsne]
      rw [stripEnds_collapse_eq_join, tokens_append, tokens_append,
        hyphenJoin_append _ _ (tokens_ne_of_slug_ne c hsc)
          (by
            intro hx
            exact tokens_ne_of_slug_ne s hss (List.append_eq_nil.1 hx).1),
        hyphenJoin_append _ _ (tokens_ne_of_slug_ne s hss)
          (tokens_ne_of_slug_ne n hsn),
        ← slugSpec_eq_join, ← slugSpec_eq_join, ← slugSpec_eq_join]
      simp [List.append_assoc]

/-- Witness for the C7 theorem: a concrete record with a state province
whose id is the three slugs joined by hyphens. -/
theorem generateId_slug_properties_witness :
    generateId sampleRaw =
      .ok (slugSpec (jstr "United States") ++ '-' ::
        slugSpec (jstr "New York") ++ '-' :: slugSpec (jstr "Test University")) :=
  (generateId_slug_properties.2 sampleRaw (jstr "Test University")
      (jstr "United States") rfl rfl (by decide) (by decide) (by decide)
      (by decide)).2
    (jstr "New York") rfl (by decide) (by decide)

end UniETL
